import Mathlib

/-!
Shallow embedding of the FastAPI-Async-Demo repository
(`app/utils.py`, `app/main.py`, `app/database.py`, `app/schemas.py`).

The embedding models:
* the external-fetch helper `fetch_external_api` over an explicit
  environment describing what the HTTP client did (raised, or returned a
  response whose body parses as JSON or not);
* the CPU-bound helper `simulate_cpu_intensive_task` as the pure loop it is;
* the user Record Store (`get_user_by_email`, `create_user` in `utils.py`,
  and the `/users` endpoints in `main.py`) over an explicit table of rows;
* the per-request session dependency `get_async_db` of `database.py`;
* the asyncio event loop, as a virtual-time scheduler that repeatedly wakes
  the timer with the earliest deadline, used for `asyncio.gather`
  (`performance_async`) against sequential awaiting (`performance_sync`).
-/

namespace AsyncDemo

/-- A JSON value, the type of what `response.json()` yields in
`fetch_external_api` and of the structured error dictionary. -/
inductive JsonVal where
  | null
  | bool (b : Bool)
  | num (n : Int)
  | str (s : String)
  | arr (xs : List JsonVal)
  | obj (fields : List (String × JsonVal))
deriving Repr

/-- An HTTP response as `fetch_external_api` sees it: `httpx` hands back a
status code and a body; `response.json()` either parses the body
(`Except.ok`) or raises (`Except.error` with the exception message). -/
structure HttpResponse where
  status : Nat
  jsonBody : Except String JsonVal
deriving Repr

/-- What the HTTP client call `client.get(url, timeout=timeout)` did on one
invocation: raised an exception (timeout, connection error, ...) with a
message, or produced a response. -/
inductive FetchEnv where
  | raiseExn (msg : String)
  | response (r : HttpResponse)
deriving Repr

/-- The structured error value built by the `except` branch of
`fetch_external_api`: the Python dict `\x7b"error": str(e)\x7d`. -/
def errorValue (msg : String) : JsonVal :=
  .obj [("error", .str msg)]

/-- Embedding of `utils.fetch_external_api`: `try` the GET and
`response.json()`; any exception of either step is caught and turned into
`errorValue`. The function is total on its environment: no exception ever
propagates to the caller. The HTTP status code of a received response is
never inspected. -/
def fetch_external_api : FetchEnv → JsonVal
  | .raiseExn msg => errorValue msg
  | .response r =>
    match r.jsonBody with
    | .ok v => v
    | .error msg => errorValue msg

/-- Embedding of `utils.simulate_cpu_intensive_task`: the loop
`for i in range(iterations): result += i * i` followed by the summary
string `"Computed result: \x7bresult\x7d"`. -/
def simulate_cpu_intensive_task (iterations : Nat) : String :=
  let result := (List.range iterations).foldl (fun r i => r + i * i) 0
  "Computed result: " ++ toString result

/-- A Record Store session as `database.get_async_db` manages it: the only
observable the claims need is whether it has been closed. -/
structure Session where
  closed : Bool
deriving Repr, DecidableEq

/-- The session produced by `AsyncSessionLocal()` on entry to the
`async with` block: open. -/
def newSession : Session := ⟨false⟩

/-- The effect of `await session.close()` (also of the `async with`
block's exit handler). -/
def closeSession (_ : Session) : Session := ⟨true⟩

/-- Embedding of `database.get_async_db`: acquire a fresh session, hand it
to the request body, and close it afterwards whatever the body's outcome
was. The body is given the session and returns its outcome (a value, or a
raised error such as a 404/400 `HTTPException` or any other failure)
together with the session it leaves behind; the `finally` clause and the
`async with` exit both run `close` on every path. -/
def get_async_db {ε α : Type} (body : Session → Except ε α × Session) :
    Except ε α × Session :=
  let out := body newSession
  (out.1, closeSession out.2)

/-- A User record, per `schemas.User` (fields `email`, `full_name`, `id`,
`is_active`) and the table described by the spec's data model: integer
generated identifier, required unique email, optional full name, active
flag defaulting to true. -/
structure User where
  id : Nat
  email : String
  full_name : Option String
  is_active : Bool
deriving Repr, DecidableEq

/-- Request body of the create endpoint, per `schemas.UserCreate`. -/
structure UserCreate where
  email : String
  full_name : Option String
deriving Repr, DecidableEq

/-- Modelled from the spec: the repository imports `app.models` for the
SQLAlchemy `User` table, but `models.py` is not among the source files.
Per the spec's data model the table holds User rows and generates a fresh
integer identifier on insert; `DB` is that table as a list of rows plus
the generator's next identifier. -/
structure DB where
  rows : List User
  next_id : Nat
deriving Repr, DecidableEq

/-- The HTTP error raised by `HTTPException(status_code=..., detail=...)`. -/
structure HTTPError where
  status : Nat
  detail : String
deriving Repr, DecidableEq

/-- Embedding of `utils.get_user_by_email`: the query
`select(User).where(User.email == email)` filters rows by exact string
equality on the email column and `scalar_one_or_none()` yields the
matching row, or `None` when there is none (the email column is unique, so
more than one match cannot occur). -/
def get_user_by_email (db : DB) (email : String) : Option User :=
  db.rows.find? (fun u => u.email == email)

/-- Embedding of `utils.create_user`: build a `User` from the request data
(`is_active` taking its default), `db.add` + `commit` insert it into the
table with a freshly generated identifier, and `refresh` returns the
persisted record including the generated field. -/
def create_user (db : DB) (u : UserCreate) : User × DB :=
  let db_user : User := ⟨db.next_id, u.email, u.full_name, true⟩
  (db_user, ⟨db.rows ++ [db_user], db.next_id + 1⟩)

/-- Embedding of the `POST /users/` handler `main.create_user`: look the
email up first; if a record exists, raise 400 "Email already registered"
without inserting; otherwise insert via `utils.create_user` and return the
new record. The resulting store state is returned alongside the response. -/
def create_user_endpoint (db : DB) (u : UserCreate) :
    Except HTTPError User × DB :=
  match get_user_by_email db u.email with
  | some _ => (.error ⟨400, "Email already registered"⟩, db)
  | none =>
    let (db_user, db1) := create_user db u
    (.ok db_user, db1)

/-- Embedding of the `GET /users/\x7buser_email\x7d` handler
`main.get_user`: an absent lookup raises 404 "User not found", a present
one returns the record. -/
def get_user_endpoint (db : DB) (email : String) : Except HTTPError User :=
  match get_user_by_email db email with
  | none => .error ⟨404, "User not found"⟩
  | some u => .ok u

/-- A simulated asynchronous operation as the Task Coordinator sees it: a
coroutine that suspends on one timer of the given duration (in seconds,
virtual time as rational numbers) and then yields its result string. -/
structure SimOp where
  duration : ℚ
  result : String
deriving Repr, DecidableEq

/-- Embedding of `utils.simulate_slow_io_operation`: `await
asyncio.sleep(seconds)` (a suspension of exactly `seconds` on the event
loop's clock, holding nothing while suspended) followed by returning the
string `"Result after \x7bseconds\x7d seconds"`. -/
def simulate_slow_io_operation (seconds : ℚ) : SimOp :=
  ⟨seconds, "Result after " ++ toString seconds ++ " seconds"⟩

/-- A timer registered with the event loop by a gathered task: the input
slot index the task occupies in the gather, the absolute virtual time at
which its sleep expires, and the result it will yield then. -/
structure SleepTask where
  idx : Nat
  wake : ℚ
  result : String
deriving Repr, DecidableEq

/-- A completed task as recorded by the event loop: slot index, yielded
result, and the virtual time at which it completed. -/
structure DoneEntry where
  idx : Nat
  result : String
  fin : ℚ
deriving Repr, DecidableEq

/-- The event loop's timer selection: remove from the pending list a task
whose deadline is earliest (`none` exactly when nothing is pending). -/
def popMinWake : List SleepTask → Option (SleepTask × List SleepTask)
  | [] => none
  | t :: ts =>
    match popMinWake ts with
    | none => some (t, [])
    | some (m, rest) =>
      if t.wake ≤ m.wake then some (t, ts) else some (m, t :: rest)

/-- One run of the event loop over pending timers, fuelled by the number of
pending tasks: repeatedly wake the earliest timer, advance the virtual
clock to its deadline, and record its completion. Returns the clock value
when the last task has completed together with the completion log in
completion order. -/
def eventLoopAux : Nat → List SleepTask → ℚ → List DoneEntry →
    ℚ × List DoneEntry
  | 0, _, now, done => (now, done)
  | fuel + 1, p, now, done =>
    match popMinWake p with
    | none => (now, done)
    | some (t, r) =>
      eventLoopAux fuel r (max now t.wake)
        (done ++ [⟨t.idx, t.result, max now t.wake⟩])

/-- The event loop started at virtual time 0 with an empty completion log
and exactly enough fuel to drain the pending list. -/
def eventLoop (p : List SleepTask) : ℚ × List DoneEntry :=
  eventLoopAux p.length p 0 []

/-- The timers `asyncio.gather` registers for a list of operations: the
operation in slot `i` (slots counted from `start`) starts immediately and
its sleep expires `duration` after the common start time 0. -/
def mkTasksFrom (start : Nat) : List SimOp → List SleepTask
  | [] => []
  | op :: ops => ⟨start, op.duration, op.result⟩ :: mkTasksFrom (start + 1) ops

/-- How `asyncio.gather` fills its result list: the result recorded for
slot `i` in the completion log (`""` cannot occur for a slot that was
gathered). -/
def slotResult (done : List DoneEntry) (i : Nat) : String :=
  match done.find? (fun e => e.idx == i) with
  | some e => e.result
  | none => ""

/-- The virtual time at which the task in slot `i` completed, read off the
completion log. -/
def slotFin (done : List DoneEntry) (i : Nat) : ℚ :=
  match done.find? (fun e => e.idx == i) with
  | some e => e.fin
  | none => 0

/-- The completion log of a gather over the given operations. -/
def gatherDone (ops : List SimOp) : List DoneEntry :=
  (eventLoop (mkTasksFrom 0 ops)).2

/-- The slot/result view of a completion-log entry. -/
def entPair (e : DoneEntry) : Nat × String := (e.idx, e.result)

/-- The slot/result view of a registered timer. -/
def taskPair (t : SleepTask) : Nat × String := (t.idx, t.result)

/-- The completion-log entry a timer produces when the loop reaches it
with the clock not past its deadline: it completes exactly at its
deadline. -/
def taskDone (t : SleepTask) : DoneEntry := ⟨t.idx, t.result, t.wake⟩

/-- Embedding of the concurrent runner (`await asyncio.gather(...)` as in
`performance_async` and `fetch_external_data`): all operations start at
once, the event loop runs them to completion, and gather returns the
elapsed virtual time together with the results placed by input slot. -/
def run_concurrent (ops : List SimOp) : ℚ × List String :=
  ((eventLoop (mkTasksFrom 0 ops)).1,
    (List.range ops.length).map (fun i => slotResult (gatherDone ops) i))

/-- Embedding of the sequential runner (`performance_sync`): each
operation is awaited in turn, so the virtual clock advances by the full
duration of each before the next starts, and results accumulate in
program order. -/
def run_sequential (ops : List SimOp) : ℚ × List String :=
  ops.foldl (fun acc op => (acc.1 + op.duration, acc.2 ++ [op.result])) (0, [])

/-- Embedding of the `GET /performance/async` handler: gather three
`simulate_slow_io_operation(1.0)` calls and report elapsed time and
results. -/
def performance_async : ℚ × List String :=
  run_concurrent [simulate_slow_io_operation 1, simulate_slow_io_operation 1,
    simulate_slow_io_operation 1]

/-- Embedding of the `GET /performance/sync` handler: await three
`simulate_slow_io_operation(1.0)` calls one after another and report
elapsed time and results. -/
def performance_sync : ℚ × List String :=
  run_sequential [simulate_slow_io_operation 1, simulate_slow_io_operation 1,
    simulate_slow_io_operation 1]

/-! Helper lemmas. -/

theorem range_foldl_sq (n : Nat) : ∀ a : Nat,
    (List.range n).foldl (fun r i => r + i * i) a =
      a + ∑ i in Finset.range n, i * i := by
  induction n with
  | zero => intro a; simp
  | succ n ih =>
    intro a
    rw [List.range_succ, List.foldl_append, ih, Finset.sum_range_succ]
    simp [Nat.add_assoc]

end AsyncDemo

namespace AsyncDemo

theorem find?_unique {α : Type} {p : α → Bool} {l : List α} {a : α}
    (huniq : ∀ b ∈ l, p b = true → b = a) (ha : a ∈ l) (hpa : p a = true) :
    l.find? p = some a := by
  have h1 : (l.find? p).isSome := List.find?_isSome.mpr ⟨a, ha, hpa⟩
  obtain ⟨x, hx⟩ := Option.isSome_iff_exists.mp h1
  have hpx := List.find?_some hx
  have hmx := List.mem_of_find?_eq_some hx
  rw [hx, huniq x hmx hpx]

theorem get_user_by_email_some {db : DB} {email : String} {u : User}
    (h : get_user_by_email db email = some u) :
    u ∈ db.rows ∧ u.email = email := by
  refine ⟨List.mem_of_find?_eq_some h, ?_⟩
  have := List.find?_some h
  simpa using this

theorem get_user_by_email_of_mem {db : DB} {email : String} {u : User}
    (hU : (db.rows.map User.email).Nodup) (hu : u ∈ db.rows)
    (he : u.email = email) : get_user_by_email db email = some u := by
  apply find?_unique (a := u) ?_ hu (by simpa using he)
  intro b hb hpb
  exact List.inj_on_of_nodup_map hU hb hu (by simpa [he] using hpb)

/-- C3: for every URL and timeout (that is, for every behaviour of the
underlying HTTP GET and body parse), `fetch_external_api` propagates no
exception: it is a total function whose value is either the structured
error dictionary for the caught exception's message, or, when a response
arrived and its body parsed, the parsed JSON body. -/
theorem c3_fetch_never_raises (env : FetchEnv) :
    (∃ msg, fetch_external_api env = errorValue msg) ∨
    (∃ r v, env = .response r ∧ r.jsonBody = .ok v ∧
      fetch_external_api env = v) := by
  cases env with
  | raiseExn msg => exact .inl ⟨msg, rfl⟩
  | response r =>
    cases h : r.jsonBody with
    | ok v => exact .inr ⟨r, v, rfl, h, by simp [fetch_external_api, h]⟩
    | error msg => exact .inl ⟨msg, by simp [fetch_external_api, h]⟩

/-- C10: `fetch_external_api` never inspects the HTTP status code: any
response whose body parses as JSON is returned as the success value even
when the status is 4xx or 5xx, and only a raised exception on the GET or
a body that fails to parse produces the `\x7b"error": ...\x7d` value. -/
theorem c10_fetch_ignores_status :
    (∀ status v, fetch_external_api (.response ⟨status, .ok v⟩) = v) ∧
    (∀ status msg,
      fetch_external_api (.response ⟨status, .error msg⟩) = errorValue msg) ∧
    (∀ msg, fetch_external_api (.raiseExn msg) = errorValue msg) :=
  ⟨fun _ _ => rfl, fun _ _ => rfl, fun _ => rfl⟩

/-- C9: for every iteration count `n`, `simulate_cpu_intensive_task n` is
the pure computation returning `"Computed result: "` followed by the sum
of `i * i` over `i < n`. -/
theorem c9_cpu_task_sum_of_squares (n : Nat) :
    simulate_cpu_intensive_task n =
      "Computed result: " ++ toString (∑ i in Finset.range n, i * i) := by
  unfold simulate_cpu_intensive_task
  rw [range_foldl_sq n 0, Nat.zero_add]

/-- C7: every request body run under the `get_async_db` dependency leaves
a closed session behind, whatever the body's outcome (a value, a 404/400
`HTTPException`, or any other raised error): the `finally` clause and the
`async with` exit close it on every path. -/
theorem c7_session_always_closed {ε α : Type}
    (body : Session → Except ε α × Session) :
    (get_async_db body).2.closed = true := rfl

/-- C6: when the store's emails are pairwise distinct (the table's
uniqueness constraint), `get_user_by_email` returns exactly the unique
record whose email equals the query string — matching is exact string
equality, neither partial nor case-insensitive — and returns `none` when
no record matches exactly; at the HTTP boundary, a present record is
returned and an absent one is surfaced as a 404 with detail
"User not found". -/
theorem c6_lookup_exact_match (db : DB) (email : String)
    (hU : (db.rows.map User.email).Nodup) :
    (∀ u, get_user_by_email db email = some u ↔
      u ∈ db.rows ∧ u.email = email) ∧
    (get_user_by_email db email = none ↔
      ∀ u ∈ db.rows, u.email ≠ email) ∧
    (∀ u, get_user_by_email db email = some u →
      get_user_endpoint db email = .ok u) ∧
    (get_user_by_email db email = none →
      get_user_endpoint db email = .error ⟨404, "User not found"⟩) := by
  refine ⟨fun u => ⟨fun h => get_user_by_email_some h,
      fun h => get_user_by_email_of_mem hU h.1 h.2⟩, ?_, ?_, ?_⟩
  · unfold get_user_by_email
    rw [List.find?_eq_none]
    constructor
    · intro h u hu; have := h u hu; simpa using this
    · intro h u hu; simpa using h u hu
  · intro u h; simp [get_user_endpoint, h]
  · intro h; simp [get_user_endpoint, h]

theorem c6_lookup_exact_match_witness :
    (∀ u, get_user_by_email ⟨[⟨1, "a@example.com", none, true⟩], 2⟩
        "a@example.com" = some u ↔
      u ∈ ([⟨1, "a@example.com", none, true⟩] : List User) ∧
        u.email = "a@example.com") ∧
    (get_user_by_email ⟨[⟨1, "a@example.com", none, true⟩], 2⟩
        "a@example.com" = none ↔
      ∀ u ∈ ([⟨1, "a@example.com", none, true⟩] : List User),
        u.email ≠ "a@example.com") ∧
    (∀ u, get_user_by_email ⟨[⟨1, "a@example.com", none, true⟩], 2⟩
        "a@example.com" = some u →
      get_user_endpoint ⟨[⟨1, "a@example.com", none, true⟩], 2⟩
        "a@example.com" = .ok u) ∧
    (get_user_by_email ⟨[⟨1, "a@example.com", none, true⟩], 2⟩
        "a@example.com" = none →
      get_user_endpoint ⟨[⟨1, "a@example.com", none, true⟩], 2⟩
        "a@example.com" = .error ⟨404, "User not found"⟩) :=
  c6_lookup_exact_match ⟨[⟨1, "a@example.com", none, true⟩], 2⟩
    "a@example.com" (by simp)

/-- C4: when the store holds exactly one record with email `e`, a create
request for `e` is rejected with 400 "Email already registered", the
store state is returned unchanged (no insert happened), and the store
afterwards still holds exactly one record with email `e`. -/
theorem c4_duplicate_email_rejected (db : DB) (e : String) (fn : Option String)
    (h : (db.rows.filter (fun u => u.email == e)).length = 1) :
    create_user_endpoint db ⟨e, fn⟩ =
      (.error ⟨400, "Email already registered"⟩, db) ∧
    (((create_user_endpoint db ⟨e, fn⟩).2.rows.filter
      (fun u => u.email == e)).length = 1) := by
  obtain ⟨u, hu⟩ := List.length_eq_one.mp h
  have humem : u ∈ db.rows.filter (fun v => v.email == e) := by
    rw [hu]; exact List.mem_singleton_self u
  have hmem : u ∈ db.rows := (List.mem_filter.mp humem).1
  have hpe : (u.email == e) = true := (List.mem_filter.mp humem).2
  have hsome : (get_user_by_email db e).isSome :=
    List.find?_isSome.mpr ⟨u, hmem, hpe⟩
  obtain ⟨x, hx⟩ := Option.isSome_iff_exists.mp hsome
  have h1 : create_user_endpoint db ⟨e, fn⟩ =
      (.error ⟨400, "Email already registered"⟩, db) := by
    unfold create_user_endpoint
    rw [hx]
  exact ⟨h1, by rw [h1, h]⟩

theorem c4_duplicate_email_rejected_witness :
    create_user_endpoint ⟨[⟨1, "a@example.com", none, true⟩], 2⟩
        ⟨"a@example.com", none⟩ =
      (.error ⟨400, "Email already registered"⟩,
        ⟨[⟨1, "a@example.com", none, true⟩], 2⟩) ∧
    (((create_user_endpoint ⟨[⟨1, "a@example.com", none, true⟩], 2⟩
        ⟨"a@example.com", none⟩).2.rows.filter
      (fun u => u.email == "a@example.com")).length = 1) :=
  c4_duplicate_email_rejected ⟨[⟨1, "a@example.com", none, true⟩], 2⟩
    "a@example.com" none (by simp)

/-- C5: creating a user with an email `e` absent from the store succeeds,
returning a record whose email is `e` and whose identifier is freshly
generated (distinct from every identifier already in use, given that the
generator's counter is ahead of all stored rows); looking `e` up in the
resulting store finds exactly that record, and an email never created
remains absent after the insert. -/
theorem c5_create_then_lookup (db : DB) (e : String) (fn : Option String)
    (habs : get_user_by_email db e = none)
    (hfresh : ∀ u ∈ db.rows, u.id < db.next_id) :
    ∃ nu db1, create_user_endpoint db ⟨e, fn⟩ = (.ok nu, db1) ∧
      nu.email = e ∧
      (∀ u ∈ db.rows, u.id ≠ nu.id) ∧
      get_user_by_email db1 e = some nu ∧
      (∀ m, m ≠ e → get_user_by_email db m = none →
        get_user_by_email db1 m = none) := by
  refine ⟨⟨db.next_id, e, fn, true⟩, ⟨db.rows ++ [⟨db.next_id, e, fn, true⟩],
    db.next_id + 1⟩, ?_, rfl, ?_, ?_, ?_⟩
  · unfold create_user_endpoint
    rw [habs]
    rfl
  · intro u hu
    exact Nat.ne_of_lt (hfresh u hu)
  · unfold get_user_by_email at habs ⊢
    rw [List.find?_append, habs]
    simp
  · intro m hm habsm
    unfold get_user_by_email at habsm ⊢
    rw [List.find?_append, habsm]
    simp [Option.or]
    exact fun h => absurd h.symm hm

theorem c5_create_then_lookup_witness :
    ∃ nu db1, create_user_endpoint ⟨[], 1⟩ ⟨"a@example.com", none⟩ =
        (.ok nu, db1) ∧
      nu.email = "a@example.com" ∧
      (∀ u ∈ ([] : List User), u.id ≠ nu.id) ∧
      get_user_by_email db1 "a@example.com" = some nu ∧
      (∀ m, m ≠ "a@example.com" → get_user_by_email ⟨[], 1⟩ m = none →
        get_user_by_email db1 m = none) :=
  c5_create_then_lookup ⟨[], 1⟩ "a@example.com" none rfl (by simp)

/-! Event-loop lemmas. -/

theorem popMinWake_eq_none {l : List SleepTask} :
    popMinWake l = none ↔ l = [] := by
  cases l with
  | nil => simp [popMinWake]
  | cons t ts =>
    simp only [popMinWake]
    cases popMinWake ts with
    | none => simp
    | some p =>
      obtain ⟨m, rest⟩ := p
      by_cases h : t.wake ≤ m.wake <;> simp [h]

theorem popMinWake_perm : ∀ (l : List SleepTask) (t : SleepTask)
    (r : List SleepTask), popMinWake l = some (t, r) → l.Perm (t :: r) := by
  intro l
  induction l with
  | nil => intro t r h; simp [popMinWake] at h
  | cons x xs ih =>
    intro t r h
    simp only [popMinWake] at h
    cases h2 : popMinWake xs with
    | none =>
      rw [h2] at h
      cases h
      rw [popMinWake_eq_none.mp h2]
    | some p =>
      obtain ⟨m, rest⟩ := p
      rw [h2] at h
      by_cases hle : x.wake ≤ m.wake
      · simp only [if_pos hle, Option.some.injEq, Prod.mk.injEq] at h
        obtain ⟨ht, hr⟩ := h
        subst ht; subst hr
        exact List.Perm.refl _
      · simp only [if_neg hle, Option.some.injEq, Prod.mk.injEq] at h
        obtain ⟨ht, hr⟩ := h
        subst ht; subst hr
        have h1 : List.Perm (x :: xs) (x :: m :: rest) :=
          (ih m rest h2).cons x
        exact h1.trans (List.Perm.swap m x rest)

theorem popMinWake_min : ∀ (l : List SleepTask) (t : SleepTask)
    (r : List SleepTask), popMinWake l = some (t, r) →
    ∀ u ∈ r, t.wake ≤ u.wake := by
  intro l
  induction l with
  | nil => intro t r h; simp [popMinWake] at h
  | cons x xs ih =>
    intro t r h
    simp only [popMinWake] at h
    cases h2 : popMinWake xs with
    | none =>
      rw [h2] at h
      cases h
      intro u hu
      simp at hu
    | some p =>
      obtain ⟨m, rest⟩ := p
      rw [h2] at h
      by_cases hle : x.wake ≤ m.wake
      · simp only [if_pos hle, Option.some.injEq, Prod.mk.injEq] at h
        obtain ⟨ht, hr⟩ := h
        subst ht; subst hr
        intro u hu
        have hmem : u ∈ m :: rest := (popMinWake_perm xs m rest h2).mem_iff.mp hu
        rcases List.mem_cons.mp hmem with h3 | h3
        · rw [h3]; exact hle
        · exact le_trans hle (ih m rest h2 u h3)
      · simp only [if_neg hle, Option.some.injEq, Prod.mk.injEq] at h
        obtain ⟨ht, hr⟩ := h
        subst ht; subst hr
        intro u hu
        rcases List.mem_cons.mp hu with h3 | h3
        · rw [h3]; exact le_of_not_le hle
        · exact ih m rest h2 u h3

theorem eventLoopAux_succ_none {fuel : Nat} {p : List SleepTask} {now : ℚ}
    {done : List DoneEntry} (h : popMinWake p = none) :
    eventLoopAux (fuel + 1) p now done = (now, done) := by
  simp [eventLoopAux, h]

theorem eventLoopAux_succ_some {fuel : Nat} {p : List SleepTask} {now : ℚ}
    {done : List DoneEntry} {t : SleepTask} {r : List SleepTask}
    (h : popMinWake p = some (t, r)) :
    eventLoopAux (fuel + 1) p now done =
      eventLoopAux fuel r (max now t.wake)
        (done ++ [⟨t.idx, t.result, max now t.wake⟩]) := by
  simp [eventLoopAux, h]

theorem eventLoopAux_pairs_perm : ∀ (fuel : Nat) (p : List SleepTask)
    (now : ℚ) (done : List DoneEntry), p.length ≤ fuel →
    List.Perm ((eventLoopAux fuel p now done).2.map entPair)
      (done.map entPair ++ p.map taskPair) := by
  intro fuel
  induction fuel with
  | zero =>
    intro p now done hlen
    rw [List.length_eq_zero.mp (Nat.le_zero.mp hlen)]
    simp [eventLoopAux]
  | succ fuel ih =>
    intro p now done hlen
    cases h : popMinWake p with
    | none =>
      rw [eventLoopAux_succ_none h, popMinWake_eq_none.mp h]
      simp
    | some pr =>
      obtain ⟨t, r⟩ := pr
      rw [eventLoopAux_succ_some h]
      have hperm := popMinWake_perm p t r h
      have hlen2 : r.length ≤ fuel := by
        have := hperm.length_eq
        simp only [List.length_cons] at this
        omega
      refine (ih r (max now t.wake)
        (done ++ [⟨t.idx, t.result, max now t.wake⟩]) hlen2).trans ?_
      rw [List.map_append, List.append_assoc]
      apply List.Perm.append_left
      have h2 : List.Perm ((t :: r).map taskPair) (p.map taskPair) :=
        (hperm.map taskPair).symm
      simpa [entPair, taskPair] using h2

theorem maxRightComm (a b c : ℚ) : max (max a b) c = max (max a c) b :=
  sup_right_comm a b c

theorem foldl_max_wake_perm {l l2 : List SleepTask} (h : List.Perm l l2) :
    ∀ a : ℚ, l.foldl (fun x t => max x t.wake) a =
      l2.foldl (fun x t => max x t.wake) a := by
  induction h with
  | nil => intro a; rfl
  | cons x _ ih => intro a; simp only [List.foldl_cons]; exact ih _
  | swap x y l => intro a; simp only [List.foldl_cons]; rw [maxRightComm]
  | trans _ _ ih1 ih2 => intro a; rw [ih1, ih2]

theorem eventLoopAux_time : ∀ (fuel : Nat) (p : List SleepTask) (now : ℚ)
    (done : List DoneEntry), p.length ≤ fuel →
    (eventLoopAux fuel p now done).1 =
      p.foldl (fun x t => max x t.wake) now := by
  intro fuel
  induction fuel with
  | zero =>
    intro p now done hlen
    rw [List.length_eq_zero.mp (Nat.le_zero.mp hlen)]
    simp [eventLoopAux]
  | succ fuel ih =>
    intro p now done hlen
    cases h : popMinWake p with
    | none =>
      rw [eventLoopAux_succ_none h, popMinWake_eq_none.mp h]
      simp
    | some pr =>
      obtain ⟨t, r⟩ := pr
      rw [eventLoopAux_succ_some h]
      have hperm := popMinWake_perm p t r h
      have hlen2 : r.length ≤ fuel := by
        have := hperm.length_eq
        simp only [List.length_cons] at this
        omega
      rw [ih r _ _ hlen2, foldl_max_wake_perm hperm now]
      simp only [List.foldl_cons]

theorem eventLoopAux_perm_of_le : ∀ (fuel : Nat) (p : List SleepTask)
    (now : ℚ) (done : List DoneEntry), p.length ≤ fuel →
    (∀ t ∈ p, now ≤ t.wake) →
    List.Perm (eventLoopAux fuel p now done).2 (done ++ p.map taskDone) := by
  intro fuel
  induction fuel with
  | zero =>
    intro p now done hlen _
    rw [List.length_eq_zero.mp (Nat.le_zero.mp hlen)]
    simp [eventLoopAux]
  | succ fuel ih =>
    intro p now done hlen hle
    cases h : popMinWake p with
    | none =>
      rw [eventLoopAux_succ_none h, popMinWake_eq_none.mp h]
      simp
    | some pr =>
      obtain ⟨t, r⟩ := pr
      rw [eventLoopAux_succ_some h]
      have hperm := popMinWake_perm p t r h
      have htp : t ∈ p := hperm.mem_iff.mpr (List.mem_cons_self t r)
      have hmax : max now t.wake = t.wake := max_eq_right (hle t htp)
      rw [hmax]
      have hlen2 : r.length ≤ fuel := by
        have := hperm.length_eq
        simp only [List.length_cons] at this
        omega
      have hle2 : ∀ u ∈ r, t.wake ≤ u.wake := popMinWake_min p t r h
      refine (ih r t.wake (done ++ [⟨t.idx, t.result, t.wake⟩])
        hlen2 hle2).trans ?_
      rw [List.append_assoc]
      apply List.Perm.append_left
      have h2 : List.Perm ((t :: r).map taskDone) (p.map taskDone) :=
        (hperm.map taskDone).symm
      simpa [taskDone] using h2

theorem mkTasksFrom_length : ∀ (ops : List SimOp) (start : Nat),
    (mkTasksFrom start ops).length = ops.length := by
  intro ops
  induction ops with
  | nil => intro start; rfl
  | cons op rest ih => intro start; simp [mkTasksFrom, ih]

theorem mkTasksFrom_idx_ge : ∀ (ops : List SimOp) (start : Nat)
    (t : SleepTask), t ∈ mkTasksFrom start ops → start ≤ t.idx := by
  intro ops
  induction ops with
  | nil => intro start t h; simp [mkTasksFrom] at h
  | cons op rest ih =>
    intro start t h
    simp only [mkTasksFrom] at h
    rcases List.mem_cons.mp h with h2 | h2
    · subst h2; exact le_refl start
    · exact le_trans (Nat.le_succ start) (ih (start + 1) t h2)

theorem mkTasksFrom_keys_nodup : ∀ (ops : List SimOp) (start : Nat),
    ((mkTasksFrom start ops).map SleepTask.idx).Nodup := by
  intro ops
  induction ops with
  | nil => intro start; simp [mkTasksFrom]
  | cons op rest ih =>
    intro start
    simp only [mkTasksFrom, List.map_cons, List.nodup_cons]
    refine ⟨?_, ih (start + 1)⟩
    intro hmem
    obtain ⟨t, ht, hidx⟩ := List.mem_map.mp hmem
    have := mkTasksFrom_idx_ge rest (start + 1) t ht
    omega

theorem mem_mkTasksFrom : ∀ (ops : List SimOp) (start j : Nat)
    (hj : j < ops.length),
    (⟨start + j, (ops.get ⟨j, hj⟩).duration, (ops.get ⟨j, hj⟩).result⟩ :
      SleepTask) ∈ mkTasksFrom start ops := by
  intro ops
  induction ops with
  | nil => intro start j hj; simp at hj
  | cons op rest ih =>
    intro start j hj
    cases j with
    | zero =>
      simp only [mkTasksFrom, Nat.add_zero, List.get]
      exact List.mem_cons_self _ _
    | succ j =>
      simp only [mkTasksFrom, List.get]
      apply List.mem_cons_of_mem
      have hj2 : j < rest.length := Nat.succ_lt_succ_iff.mp hj
      have harith : start + (j + 1) = start + 1 + j := by omega
      rw [harith]
      exact ih (start + 1) j hj2

theorem mkTasksFrom_wake_mem : ∀ (ops : List SimOp) (start : Nat)
    (t : SleepTask), t ∈ mkTasksFrom start ops →
    ∃ op ∈ ops, t.wake = op.duration := by
  intro ops
  induction ops with
  | nil => intro start t h; simp [mkTasksFrom] at h
  | cons op rest ih =>
    intro start t h
    simp only [mkTasksFrom] at h
    rcases List.mem_cons.mp h with h2 | h2
    · exact ⟨op, List.mem_cons_self op rest, by rw [h2]⟩
    · obtain ⟨op2, hop2, heq⟩ := ih (start + 1) t h2
      exact ⟨op2, List.mem_cons_of_mem op hop2, heq⟩

theorem find?_idx_of_mem {done : List DoneEntry}
    (hnd : (done.map DoneEntry.idx).Nodup) {e : DoneEntry} (he : e ∈ done) :
    done.find? (fun x => x.idx == e.idx) = some e := by
  apply find?_unique (a := e) ?_ he (by simp)
  intro b hb hpb
  exact List.inj_on_of_nodup_map hnd hb he (by simpa using hpb)

theorem slotResult_of_mem {done : List DoneEntry}
    (hnd : (done.map DoneEntry.idx).Nodup) {e : DoneEntry} (he : e ∈ done) :
    slotResult done e.idx = e.result := by
  unfold slotResult
  rw [find?_idx_of_mem hnd he]

theorem slotFin_of_mem {done : List DoneEntry}
    (hnd : (done.map DoneEntry.idx).Nodup) {e : DoneEntry} (he : e ∈ done) :
    slotFin done e.idx = e.fin := by
  unfold slotFin
  rw [find?_idx_of_mem hnd he]

theorem gatherDone_pairs_perm (ops : List SimOp) :
    List.Perm ((gatherDone ops).map entPair)
      ((mkTasksFrom 0 ops).map taskPair) := by
  unfold gatherDone eventLoop
  have := eventLoopAux_pairs_perm (mkTasksFrom 0 ops).length
    (mkTasksFrom 0 ops) 0 [] (le_refl _)
  simpa using this

theorem gatherDone_keys_nodup (ops : List SimOp) :
    ((gatherDone ops).map DoneEntry.idx).Nodup := by
  have h2 := (gatherDone_pairs_perm ops).map Prod.fst
  rw [List.map_map, List.map_map] at h2
  have ha : (Prod.fst ∘ entPair) = DoneEntry.idx := rfl
  have hb : (Prod.fst ∘ taskPair) = SleepTask.idx := rfl
  rw [ha, hb] at h2
  exact h2.nodup_iff.mpr (mkTasksFrom_keys_nodup ops 0)

theorem slotResult_gather (ops : List SimOp) (j : Nat) (hj : j < ops.length) :
    slotResult (gatherDone ops) j = (ops.get ⟨j, hj⟩).result := by
  have hmem := mem_mkTasksFrom ops 0 j hj
  have hpair : ((j, (ops.get ⟨j, hj⟩).result) : Nat × String) ∈
      (mkTasksFrom 0 ops).map taskPair := by
    have := List.mem_map_of_mem taskPair hmem
    simpa [taskPair] using this
  have hmem2 : ((j, (ops.get ⟨j, hj⟩).result) : Nat × String) ∈
      (gatherDone ops).map entPair :=
    (gatherDone_pairs_perm ops).mem_iff.mpr hpair
  obtain ⟨e, he, heq⟩ := List.mem_map.mp hmem2
  have hidx : e.idx = j := by
    have := congrArg Prod.fst heq
    simpa [entPair] using this
  have hres : e.result = (ops.get ⟨j, hj⟩).result := by
    have := congrArg Prod.snd heq
    simpa [entPair] using this
  have hs := slotResult_of_mem (gatherDone_keys_nodup ops) he
  rw [hidx] at hs
  rw [hs, hres]

/-- C2: `asyncio.gather` returns results in the order of its input
sequence, for every ordered sequence of operations with arbitrary
individual durations, regardless of the order in which the event loop
completes them. -/
theorem c2_gather_preserves_input_order (ops : List SimOp) :
    (run_concurrent ops).2 = ops.map SimOp.result := by
  show (List.range ops.length).map (fun i => slotResult (gatherDone ops) i) =
    ops.map SimOp.result
  apply List.ext_getElem
  · simp
  · intro i h1 h2
    have hi : i < ops.length := by simpa using h2
    simp only [List.getElem_map, List.getElem_range]
    rw [slotResult_gather ops i hi]
    simp [List.get_eq_getElem]

theorem mkTasksFrom_foldl_max : ∀ (ops : List SimOp) (start : Nat) (a : ℚ),
    (mkTasksFrom start ops).foldl (fun x t => max x t.wake) a =
      ops.foldl (fun x op => max x op.duration) a := by
  intro ops
  induction ops with
  | nil => intro start a; rfl
  | cons op rest ih =>
    intro start a
    simp only [mkTasksFrom, List.foldl_cons]
    exact ih (start + 1) _

theorem run_concurrent_time (ops : List SimOp) :
    (run_concurrent ops).1 = ops.foldl (fun x op => max x op.duration) 0 := by
  show (eventLoop (mkTasksFrom 0 ops)).1 = _
  unfold eventLoop
  rw [eventLoopAux_time _ _ _ _ (le_refl _)]
  exact mkTasksFrom_foldl_max ops 0 0

theorem foldl_max_replicate (d : ℚ) : ∀ (n : Nat) (a : ℚ), 0 < n →
    (List.replicate n (simulate_slow_io_operation d)).foldl
      (fun x op => max x op.duration) a = max a d := by
  intro n
  induction n with
  | zero => intro a h; exact absurd h (lt_irrefl 0)
  | succ n ih =>
    intro a h
    rw [List.replicate_succ, List.foldl_cons]
    cases Nat.eq_zero_or_pos n with
    | inl h0 => subst h0; simp [simulate_slow_io_operation]
    | inr hpos =>
      rw [ih _ hpos]
      show max (max a d) d = max a d
      rw [max_assoc, max_self]

theorem run_sequential_time_replicate (d : ℚ) :
    ∀ (n : Nat) (acc : ℚ × List String),
    ((List.replicate n (simulate_slow_io_operation d)).foldl
      (fun acc op => (acc.1 + op.duration, acc.2 ++ [op.result])) acc).1 =
      acc.1 + n * d := by
  intro n
  induction n with
  | zero => intro acc; simp
  | succ n ih =>
    intro acc
    rw [List.replicate_succ, List.foldl_cons, ih]
    simp only [simulate_slow_io_operation]
    push_cast
    ring

/-- C1: for every set of N independent simulated waits of duration d,
running them concurrently through the event loop takes exactly d of
virtual time (the model's reading of "approximately d, ± scheduling
overhead") while awaiting them in turn takes N·d; in the concrete case of
`performance_async` and `performance_sync` (three 1.0-second operations),
the concurrent elapsed time is 1 and the sequential one is 3. -/
theorem c1_concurrent_vs_sequential_time (n : Nat) (d : ℚ)
    (hn : 0 < n) (hd : 0 ≤ d) :
    (run_concurrent (List.replicate n (simulate_slow_io_operation d))).1 = d ∧
    (run_sequential (List.replicate n (simulate_slow_io_operation d))).1 =
      n * d ∧
    performance_async.1 = 1 ∧ performance_sync.1 = 3 := by
  refine ⟨?_, ?_, ?_, ?_⟩
  · rw [run_concurrent_time, foldl_max_replicate d n 0 hn]
    exact max_eq_right hd
  · unfold run_sequential
    rw [run_sequential_time_replicate d n (0, [])]
    simp
  · show (run_concurrent (List.replicate 3 (simulate_slow_io_operation 1))).1 = 1
    rw [run_concurrent_time, foldl_max_replicate 1 3 0 (by norm_num)]
    norm_num
  · show (run_sequential (List.replicate 3 (simulate_slow_io_operation 1))).1 = 3
    unfold run_sequential
    rw [run_sequential_time_replicate 1 3 (0, [])]
    norm_num

theorem c1_concurrent_vs_sequential_time_witness :
    (run_concurrent (List.replicate 3 (simulate_slow_io_operation 1))).1 = 1 ∧
    (run_sequential (List.replicate 3 (simulate_slow_io_operation 1))).1 =
      ((3 : Nat) : ℚ) * 1 ∧
    performance_async.1 = 1 ∧ performance_sync.1 = 3 :=
  c1_concurrent_vs_sequential_time 3 1 (by norm_num) (by norm_num)

theorem gatherDone_perm_taskDone (ops : List SimOp)
    (h : ∀ op ∈ ops, (0 : ℚ) ≤ op.duration) :
    List.Perm (gatherDone ops) ((mkTasksFrom 0 ops).map taskDone) := by
  unfold gatherDone eventLoop
  have hw : ∀ t ∈ mkTasksFrom 0 ops, (0 : ℚ) ≤ t.wake := by
    intro t ht
    obtain ⟨op, hop, heq⟩ := mkTasksFrom_wake_mem ops 0 t ht
    rw [heq]
    exact h op hop
  have := eventLoopAux_perm_of_le (mkTasksFrom 0 ops).length
    (mkTasksFrom 0 ops) 0 [] (le_refl _) hw
  simpa using this

/-- C8: in a gather over any list of `simulate_slow_io_operation` calls
with nonnegative durations, the operation in slot `j` completes on the
event loop's clock exactly at its own duration — co-scheduled sleeps do
not delay it, since a suspended sleep blocks nothing — and yields the
string "Result after " ++ its duration ++ " seconds". -/
theorem c8_sleep_nonblocking (durs : List ℚ) (h : ∀ d ∈ durs, 0 ≤ d)
    (j : Nat) (hj : j < durs.length) :
    slotFin (gatherDone (durs.map simulate_slow_io_operation)) j =
      durs.get ⟨j, hj⟩ ∧
    slotResult (gatherDone (durs.map simulate_slow_io_operation)) j =
      "Result after " ++ toString (durs.get ⟨j, hj⟩) ++ " seconds" := by
  have hops : ∀ op ∈ durs.map simulate_slow_io_operation,
      (0 : ℚ) ≤ op.duration := by
    intro op hop
    obtain ⟨d, hd, heq⟩ := List.mem_map.mp hop
    rw [← heq]
    exact h d hd
  have hperm := gatherDone_perm_taskDone (durs.map simulate_slow_io_operation)
    hops
  have hj2 : j < (durs.map simulate_slow_io_operation).length := by
    simpa using hj
  have hmem := mem_mkTasksFrom (durs.map simulate_slow_io_operation) 0 j hj2
  have hget : (durs.map simulate_slow_io_operation).get ⟨j, hj2⟩ =
      simulate_slow_io_operation (durs.get ⟨j, hj⟩) := by
    simp [List.get_eq_getElem, List.getElem_map]
  rw [hget] at hmem
  have hmem2 : (⟨j, (simulate_slow_io_operation (durs.get ⟨j, hj⟩)).result,
      (simulate_slow_io_operation (durs.get ⟨j, hj⟩)).duration⟩ : DoneEntry) ∈
      gatherDone (durs.map simulate_slow_io_operation) := by
    apply hperm.symm.mem_iff.mp
    have := List.mem_map_of_mem taskDone hmem
    simpa [taskDone] using this
  have hnd := gatherDone_keys_nodup (durs.map simulate_slow_io_operation)
  have hfin := slotFin_of_mem hnd hmem2
  have hres := slotResult_of_mem hnd hmem2
  exact ⟨hfin, hres⟩

theorem c8_sleep_nonblocking_witness :
    slotFin (gatherDone (([2, 1] : List ℚ).map simulate_slow_io_operation))
      0 = 2 ∧
    slotResult (gatherDone (([2, 1] : List ℚ).map simulate_slow_io_operation))
      0 = "Result after " ++ toString (2 : ℚ) ++ " seconds" :=
  c8_sleep_nonblocking [2, 1] (by norm_num) 0 (by norm_num)

end AsyncDemo
